import Mathlib

/-!
Verification development for the `roadtraffic` data pipeline.

Shallow embedding of the pure data transformations of the package:

* `representor`                — `utils/process.py`, lines 149-175
* `bagging` / `bagging_mutation` — `utils/process.py`, lines 91-146
* `aggregate`                  — `utils/process.py`, lines 11-88
* `rolling_window` begin times — `utils/process.py`, lines 212-218
* `_process_initially`         — `utils/load.py`, lines 440-497
* `read_report` validation     — `utils/load.py`, lines 80-87
* `ModelResults` store/getters — `utils/models.py`

Tables (pandas `DataFrame`s) are modelled as lists of records; machine
floats are modelled by exact rationals (`ℚ`), so the algebraic claims hold
exactly; `groupby` is modelled as grouping by first occurrence of a key
(pandas additionally sorts the output by key, which is immaterial to every
property proved here, all of which are order-insensitive or per-row).
-/

namespace RoadTraffic

/-- Binary minimum on `ℚ`, spelled with an `if` so that the kernel can
evaluate it on concrete rationals. -/
def qmin (a b : ℚ) : ℚ := if a ≤ b then a else b

theorem qmin_eq_min (a b : ℚ) : qmin a b = min a b := by
  rw [qmin, min_def]

/-- Result of `numpy`'s `min` along an axis: `none` on an empty list,
otherwise the least element.  Mirrors `mult_a.min(axis=0)` applied to one
column. -/
def npMin : List ℚ → Option ℚ
  | [] => none
  | a :: t => some (t.foldl qmin a)

theorem foldl_qmin_eq_foldl_min (t : List ℚ) (a : ℚ) :
    t.foldl qmin a = t.foldl min a := by
  induction t generalizing a with
  | nil => rfl
  | cons b t ih => rw [List.foldl_cons, List.foldl_cons, qmin_eq_min, ih]

/-- Value of the `i`-th affine pieces at one query point: the column
`alpha_r + beta_r @ x_t` of `representor` for a single `x`. -/
def affineAt (alpha beta : List ℚ) (xj : ℚ) : List ℚ :=
  List.zipWith (fun a b => a + b * xj) alpha beta

/-- Embedding of `representor` (`utils/process.py` lines 149-175): for each
query point, the minimum over the affine pieces `alpha[i] + beta[i] * x`.
`none` models the failure of `numpy`'s reduction over an empty piece set. -/
def representor (alpha beta x : List ℚ) : List (Option ℚ) :=
  x.map (fun xj => npMin (affineAt alpha beta xj))

theorem foldl_min_le_init (t : List ℚ) (a : ℚ) : t.foldl min a ≤ a := by
  induction t generalizing a with
  | nil => simp
  | cons b t ih => exact le_trans (ih (min a b)) (min_le_left a b)

theorem foldl_min_le_mem (t : List ℚ) (a y : ℚ) (hy : y ∈ t) :
    t.foldl min a ≤ y := by
  induction t generalizing a with
  | nil => cases hy
  | cons b t ih =>
    rw [List.foldl_cons]
    rcases List.mem_cons.mp hy with rfl | hy
    · exact le_trans (foldl_min_le_init t (min a y)) (min_le_right a y)
    · exact ih (min a b) hy

theorem foldl_min_mem (t : List ℚ) (a : ℚ) :
    t.foldl min a = a ∨ t.foldl min a ∈ t := by
  induction t generalizing a with
  | nil => exact Or.inl rfl
  | cons b t ih =>
    rcases ih (min a b) with h | h
    · rcases min_cases a b with ⟨hm, _⟩ | ⟨hm, _⟩
      · exact Or.inl (by rw [List.foldl_cons, h, hm])
      · exact Or.inr (by rw [List.foldl_cons, h, hm]; exact List.mem_cons_self _ _)
    · exact Or.inr (List.mem_cons_of_mem _ h)

theorem npMin_spec (l : List ℚ) (m : ℚ) (h : npMin l = some m) :
    m ∈ l ∧ ∀ y ∈ l, m ≤ y := by
  match l with
  | [] => cases h
  | a :: t =>
    have hm : m = t.foldl min a := by
      rw [← foldl_qmin_eq_foldl_min]
      exact (Option.some.inj h).symm
    subst hm
    refine ⟨?_, ?_⟩
    · rcases foldl_min_mem t a with h | h
      · rw [h]; exact List.mem_cons_self _ _
      · exact List.mem_cons_of_mem _ h
    · intro y hy
      rcases List.mem_cons.mp hy with rfl | hy
      · exact foldl_min_le_init t y
      · exact foldl_min_le_mem t a y hy

theorem npMin_isSome (l : List ℚ) (h : l ≠ []) : ∃ m, npMin l = some m := by
  match l with
  | [] => exact absurd rfl h
  | a :: t => exact ⟨t.foldl qmin a, rfl⟩

theorem getD_map_of_lt {α β : Type} (f : α → β) (l : List α) (j : ℕ)
    (d : α) (d2 : β) (hj : j < l.length) :
    (l.map f).getD j d2 = f (l.getD j d) := by
  induction l generalizing j with
  | nil => cases hj
  | cons a t ih =>
    cases j with
    | zero => rfl
    | succ n => exact ih n (Nat.lt_of_succ_lt_succ hj)

theorem affineAt_length (alpha beta : List ℚ) (xj : ℚ)
    (h : alpha.length = beta.length) :
    (affineAt alpha beta xj).length = alpha.length := by
  simp [affineAt, h]

theorem affineAt_getD (alpha beta : List ℚ) (xj : ℚ) (i : ℕ)
    (h : alpha.length = beta.length) (hi : i < alpha.length) :
    (affineAt alpha beta xj).getD i 0 = alpha.getD i 0 + beta.getD i 0 * xj := by
  have hlen : (affineAt alpha beta xj).length = alpha.length :=
    affineAt_length alpha beta xj h
  rw [List.getD_eq_getElem _ _ (hlen ▸ hi), List.getD_eq_getElem _ _ hi,
    List.getD_eq_getElem _ _ (h ▸ hi)]
  simp [affineAt]

/-- C1: `representor` returns one value per query point in input order, and
the `j`-th value is the minimum over `i` of `alpha[i] + beta[i] * x[j]`
(stated as: it is attained by some piece and bounded above by every piece);
in particular `alpha=[0,10]`, `beta=[1,-1]`, `x=[0,5,10]` yields
`[0,5,0]`. -/
theorem representor_lower_envelope (alpha beta x : List ℚ)
    (hlen : alpha.length = beta.length) (hne : alpha ≠ []) :
    (representor alpha beta x).length = x.length ∧
      (∀ j, j < x.length → ∃ m, (representor alpha beta x).getD j none = some m ∧
        (∀ i, i < alpha.length → m ≤ alpha.getD i 0 + beta.getD i 0 * x.getD j 0) ∧
        (∃ i, i < alpha.length ∧ m = alpha.getD i 0 + beta.getD i 0 * x.getD j 0)) ∧
      representor [0, 10] [1, -1] [0, 5, 10] = [some 0, some 5, some 0] := by
  refine ⟨by simp [representor], ?_, by norm_num [representor, affineAt, npMin, qmin]⟩
  intro j hj
  have hrep : (representor alpha beta x).getD j none =
      npMin (affineAt alpha beta (x.getD j 0)) :=
    getD_map_of_lt (fun xj => npMin (affineAt alpha beta xj)) x j 0 none hj
  have hpne : affineAt alpha beta (x.getD j 0) ≠ [] := by
    intro hemp
    have : (affineAt alpha beta (x.getD j 0)).length = 0 := by rw [hemp]; rfl
    rw [affineAt_length _ _ _ hlen] at this
    exact hne (List.length_eq_zero.mp this)
  obtain ⟨m, hm⟩ := npMin_isSome _ hpne
  obtain ⟨hmem, hub⟩ := npMin_spec _ m hm
  refine ⟨m, by rw [hrep, hm], ?_, ?_⟩
  · intro i hi
    have hplen : i < (affineAt alpha beta (x.getD j 0)).length := by
      rw [affineAt_length _ _ _ hlen]; exact hi
    have := hub ((affineAt alpha beta (x.getD j 0)).getD i 0) ?memb
    · rwa [affineAt_getD _ _ _ _ hlen hi] at this
    · rw [List.getD_eq_getElem _ _ hplen]
      exact List.getElem_mem hplen
  · obtain ⟨i, hi, hiv⟩ := List.mem_iff_getElem.mp hmem
    have hia : i < alpha.length := by
      rw [← affineAt_length alpha beta (x.getD j 0) hlen]; exact hi
    refine ⟨i, hia, ?_⟩
    rw [← affineAt_getD _ _ _ _ hlen hia, List.getD_eq_getElem _ _ hi, hiv]

/-- Witness for `representor_lower_envelope` at the spec's own example. -/
theorem representor_lower_envelope_witness :
    ([0, 10] : List ℚ).length = ([1, -1] : List ℚ).length ∧
      ([0, 10] : List ℚ) ≠ [] ∧
      representor [0, 10] [1, -1] [0, 5, 10] = [some 0, some 5, some 0] :=
  ⟨by simp, by simp,
    (representor_lower_envelope [0, 10] [1, -1] [0, 5, 10] (by simp) (by simp)).2.2⟩

/-- Raw per-vehicle event record, the standardized Fintraffic column set
(`DEF_COL_NAMES_FINTRAFFIC` in `utils/constants.py`).  `total_time` is the
within-day time-of-day counter in hundredths of a second. -/
structure RawRow where
  id : ℕ
  year : ℕ
  day : ℕ
  hour : ℕ
  minute : ℕ
  second : ℕ
  hund_second : ℕ
  vehLength : ℚ
  lane : ℕ
  direction : ℕ
  vehicle : ℕ
  speed : ℚ
  faulty : ℕ
  total_time : ℕ
  time_interval : ℕ
  queue_start : ℕ
deriving DecidableEq

/-- Cleaned row: a raw row plus the columns derived by `_process_initially`
(`date` and the per-class indicator columns `cars`, `buses`, `trucks`). -/
structure CleanRow where
  id : ℕ
  year : ℕ
  day : ℕ
  hour : ℕ
  minute : ℕ
  second : ℕ
  lane : ℕ
  direction : ℕ
  vehicle : ℕ
  speed : ℚ
  faulty : ℕ
  total_time : ℕ
  date : ℕ
  cars : ℕ
  buses : ℕ
  trucks : ℕ
deriving DecidableEq

/-- Date code for `datetime.date(year, 1, 1) + timedelta(day - 1)`.  Only
equality of dates matters anywhere in the pipeline (the date is a group-by
key), so the calendar date is modelled by an injective-on-valid-days code
of `(year, day)`. -/
def dateOf (year day : ℕ) : ℕ := 366 * year + (day - 1)

/-- Indicator `1 if x == 1 else 0` for the `cars` column. -/
def carsOf (vehicle : ℕ) : ℕ := if vehicle = 1 then 1 else 0

/-- Indicator `1 if x == 3 else 0` for the `buses` column. -/
def busesOf (vehicle : ℕ) : ℕ := if vehicle = 3 then 1 else 0

/-- Indicator `1 if x in {2,4,5,6,7} else 0` for the `trucks` column. -/
def trucksOf (vehicle : ℕ) : ℕ :=
  if vehicle = 2 ∨ vehicle = 4 ∨ vehicle = 5 ∨ vehicle = 6 ∨ vehicle = 7 then 1 else 0

/-- Column-adding prefix of `_process_initially`: assigns `date` and the
vehicle-class indicator columns to one row. -/
def annotate (year day : ℕ) (r : RawRow) : CleanRow :=
  { id := r.id, year := r.year, day := r.day, hour := r.hour,
    minute := r.minute, second := r.second, lane := r.lane,
    direction := r.direction, vehicle := r.vehicle, speed := r.speed,
    faulty := r.faulty, total_time := r.total_time,
    date := dateOf year day, cars := carsOf r.vehicle,
    buses := busesOf r.vehicle, trucks := trucksOf r.vehicle }

/-- Embedding of `_process_initially` (`utils/load.py` lines 440-497):
derive `date`/`cars`/`buses`/`trucks`, optionally drop faulty rows, keep the
time window `hour_from*60*60*100 ≤ total_time ≤ hour_to*60*60*100`, and keep
the requested direction. -/
def process_initially (df : List RawRow) (year day direction : ℕ)
    (hour_from hour_to : ℕ) (delete_if_faulty : Bool) : List CleanRow :=
  let df0 := df.map (annotate year day)
  let df1 := if delete_if_faulty then df0.filter (fun r => r.faulty != 1) else df0
  let df2 := df1.filter (fun r => decide (hour_from * 60 * 60 * 100 ≤ r.total_time))
  let df3 := df2.filter (fun r => decide (r.total_time ≤ hour_to * 60 * 60 * 100))
  df3.filter (fun r => r.direction == direction)

/-- Modelled from the spec: the RecordCleaner of §4.1 with its "optional set
of allowed lane numbers".  The lane-capable cleaner (`raw.clean`, exercised
by the repository's tests) is not among the sources; per the spec it keeps,
on top of the `_process_initially` filters, only rows whose lane belongs to
the given set when one is supplied. -/
def cleanWithLanes (df : List RawRow) (year day direction : ℕ)
    (lanes : Option (List ℕ)) (hour_from hour_to : ℕ)
    (delete_if_faulty : Bool) : List CleanRow :=
  let base := process_initially df year day direction hour_from hour_to delete_if_faulty
  match lanes with
  | none => base
  | some ls => base.filter (fun r => r.lane ∈ ls)

/-- C4: every output row of the cleaner matches the requested direction,
lies in the inclusive time window `[hour_from, hour_to]` (expressed on the
`total_time` counter, in hundredths of a second), belongs to the allowed
lane set when one is given, and is non-faulty when faulty deletion is
requested. -/
theorem clean_rows_satisfy_filters (df : List RawRow)
    (year day direction hour_from hour_to : ℕ) (delete_if_faulty : Bool)
    (lanes : Option (List ℕ)) (r : CleanRow)
    (hr : r ∈ cleanWithLanes df year day direction lanes hour_from hour_to
      delete_if_faulty) :
    r.direction = direction ∧
      hour_from * 60 * 60 * 100 ≤ r.total_time ∧
      r.total_time ≤ hour_to * 60 * 60 * 100 ∧
      (∀ ls, lanes = some ls → r.lane ∈ ls) ∧
      (delete_if_faulty = true → r.faulty ≠ 1) := by
  have hbase : r ∈ process_initially df year day direction hour_from hour_to
      delete_if_faulty ∧ (∀ ls, lanes = some ls → r.lane ∈ ls) := by
    cases lanes with
    | none =>
      exact ⟨hr, fun ls h => by cases h⟩
    | some ls =>
      have := List.mem_filter.mp hr
      exact ⟨this.1, fun ls2 h => by
        cases h; simpa using this.2⟩
  obtain ⟨hb, hlane⟩ := hbase
  have h3 := List.mem_filter.mp hb
  have h2 := List.mem_filter.mp h3.1
  have h1 := List.mem_filter.mp h2.1
  refine ⟨by simpa using h3.2, by simpa using h1.2, by simpa using h2.2, hlane, ?_⟩
  intro hdel hfaulty
  rw [hdel] at h1
  have h0 : r ∈ List.filter (fun r => r.faulty != 1) (df.map (annotate year day)) := by
    simpa using h1.1
  have := (List.mem_filter.mp h0).2
  simp [hfaulty] at this

/-- Sample raw detector event used to witness the cleaner theorems. -/
def sampleRaw : RawRow :=
  { id := 146, year := 2019, day := 270, hour := 7, minute := 0, second := 0,
    hund_second := 0, vehLength := 4, lane := 1, direction := 1, vehicle := 1,
    speed := 80, faulty := 0, total_time := 7 * 60 * 60 * 100,
    time_interval := 0, queue_start := 0 }

/-- Witness for `clean_rows_satisfy_filters` on a one-row table. -/
theorem clean_rows_satisfy_filters_witness :
    annotate 2019 270 sampleRaw ∈
        cleanWithLanes [sampleRaw] 2019 270 1 (some [1, 2, 3]) 6 20 true ∧
      (annotate 2019 270 sampleRaw).direction = 1 ∧
      6 * 60 * 60 * 100 ≤ (annotate 2019 270 sampleRaw).total_time ∧
      (annotate 2019 270 sampleRaw).total_time ≤ 20 * 60 * 60 * 100 ∧
      (annotate 2019 270 sampleRaw).lane ∈ [1, 2, 3] ∧
      (annotate 2019 270 sampleRaw).faulty ≠ 1 := by
  have hmem : annotate 2019 270 sampleRaw ∈
      cleanWithLanes [sampleRaw] 2019 270 1 (some [1, 2, 3]) 6 20 true := by
    decide
  have h := clean_rows_satisfy_filters [sampleRaw] 2019 270 1 6 20 true
    (some [1, 2, 3]) (annotate 2019 270 sampleRaw) hmem
  exact ⟨hmem, h.1, h.2.1, h.2.2.1, h.2.2.2.1 [1, 2, 3] rfl, h.2.2.2.2 rfl⟩

/-- Validation of `read_report` (`utils/load.py` lines 80-87): the six
`assert` statements run before any data is touched. -/
def read_report_validate (year day direction hour_from hour_to : ℤ) : Bool :=
  decide (0 ≤ hour_from) && decide (hour_from < 24) &&
    decide (0 < hour_to) && decide (hour_to ≤ 24) &&
    decide (hour_from < hour_to) &&
    decide (1 ≤ day) && decide (day ≤ 366) &&
    decide (1995 ≤ year) &&
    (decide (direction = 1) || decide (direction = 2))

/-- Rejection condition exactly as the claim states it (used only to exhibit
the counterexample to C5): direction outside `{1,2}`, `hour_from` outside
`[0,23]`, `hour_to < hour_from`, or `hour_to ≥ 24`. -/
def claim_reject_condition (direction hour_from hour_to : ℤ) : Bool :=
  (!(decide (direction = 1) || decide (direction = 2))) ||
    decide (hour_from < 0) || decide (23 < hour_from) ||
    decide (hour_to < hour_from) || decide (24 ≤ hour_to)

/-- C5 counterexample: the configuration `direction=1, hour_from=6,
hour_to=24` falls under the claim's rejection condition (`hour_to ≥ 24`),
yet `read_report`'s validation accepts it (`assert 0 < hour_to <= 24`). -/
theorem read_report_hour24_counterexample :
    claim_reject_condition 1 6 24 = true ∧
      read_report_validate 2019 270 1 6 24 = true := by decide

/-- C5 amended: the validation accepts exactly the configurations with
`0 ≤ hour_from < 24`, `0 < hour_to ≤ 24`, `hour_from < hour_to`,
`1 ≤ day ≤ 366`, `1995 ≤ year` and `direction ∈ {1,2}`; so it rejects every
direction outside `{1,2}`, every `hour_from` outside `[0,23]`, every range
with `hour_to ≤ hour_from` or `hour_to ≤ 0`, and every `hour_to > 24` — but
it accepts `hour_to = 24`. -/
theorem read_report_validate_iff (year day direction hour_from hour_to : ℤ) :
    read_report_validate year day direction hour_from hour_to = true ↔
      (0 ≤ hour_from ∧ hour_from < 24 ∧ 0 < hour_to ∧ hour_to ≤ 24 ∧
        hour_from < hour_to ∧ 1 ≤ day ∧ day ≤ 366 ∧ 1995 ≤ year ∧
        (direction = 1 ∨ direction = 2)) := by
  simp [read_report_validate, and_assoc]

/-- Time unit of the aggregation bucket length (`"min"` / `"sec"`); the
`assert` at the top of `aggregate` restricts to exactly these two. -/
inductive TimeUnit
  | min
  | sec
deriving DecidableEq

/-- Hourly-scale correction of `aggregate`: `period_multiplier` stays `1`
for minutes and becomes `60` for seconds. -/
def periodMultiplier : TimeUnit → ℕ
  | .min => 1
  | .sec => 60

/-- Bucket index column `aggregation` of `aggregate`: the bucket start
count truncated to an integer (`astype int`; all quantities are
non-negative, so truncation is natural-number division). -/
def bucketIndex (unit : TimeUnit) (period : ℕ) (r : CleanRow) : ℕ :=
  match unit with
  | .min => (r.hour * 60 + r.minute) / period
  | .sec => (r.hour * 60 * 60 + r.minute * 60 + r.second) / period

/-- Group-by key of `aggregate`: `station id, date, bucket, direction` and,
when `by_lane`, the lane. -/
structure AggKey where
  id : ℕ
  date : ℕ
  aggregation : ℕ
  direction : ℕ
  lane : Option ℕ
deriving DecidableEq

/-- Key of one cleaned row for the `aggregate` group-by. -/
def aggKeyOf (by_lane : Bool) (unit : TimeUnit) (period : ℕ)
    (r : CleanRow) : AggKey :=
  { id := r.id, date := r.date, aggregation := bucketIndex unit period r,
    direction := r.direction,
    lane := if by_lane then some r.lane else none }

/-- Harmonic mean of `scipy.stats.hmean`: `n / Σ (1/xᵢ)`. -/
def hmean (l : List ℚ) : ℚ := (l.length : ℚ) / ((l.map (fun s => 1 / s)).sum)

/-- Groups formed by the pandas `groupby` inside `aggregate`: one group per
key occurring in the data, holding exactly the rows with that key (pandas
sorts the groups by key; group order is immaterial to every property proved
here). -/
def aggGroups (data : List CleanRow) (by_lane : Bool) (period : ℕ)
    (unit : TimeUnit) : List (AggKey × List CleanRow) :=
  ((data.map (aggKeyOf by_lane unit period)).dedup).map
    (fun k => (k, data.filter (fun r => decide (aggKeyOf by_lane unit period r = k))))

/-- Output record of `aggregate`: the group key together with the computed
`period_*` aggregates and the scaled `flow`/`cars`/`buses`/`trucks`,
`density` and `seconds` columns.  The human-readable `time` string column is
presentation-only and not modelled. -/
structure AggOut where
  id : ℕ
  date : ℕ
  aggregation : ℕ
  direction : ℕ
  lane : Option ℕ
  period_speed : ℚ
  period_flow : ℕ
  period_cars : ℕ
  period_buses : ℕ
  period_trucks : ℕ
  flow : ℚ
  cars : ℚ
  buses : ℚ
  trucks : ℚ
  density : ℚ
  seconds : ℚ
deriving DecidableEq

/-- Computation of one aggregated row from one group, following
`aggregate` (`utils/process.py` lines 37-75). -/
def mkAggOut (period : ℕ) (unit : TimeUnit) (kg : AggKey × List CleanRow) :
    AggOut :=
  let m := periodMultiplier unit
  let period_speed := hmean (kg.2.map (·.speed))
  let period_flow := kg.2.length
  let period_cars := (kg.2.map (·.cars)).sum
  let period_buses := (kg.2.map (·.buses)).sum
  let period_trucks := (kg.2.map (·.trucks)).sum
  let flow : ℚ := 60 * (m : ℚ) / (period : ℚ) * (period_flow : ℚ)
  { id := kg.1.id, date := kg.1.date, aggregation := kg.1.aggregation,
    direction := kg.1.direction, lane := kg.1.lane,
    period_speed := period_speed, period_flow := period_flow,
    period_cars := period_cars, period_buses := period_buses,
    period_trucks := period_trucks,
    flow := flow,
    cars := 60 * (m : ℚ) / (period : ℚ) * (period_cars : ℚ),
    buses := 60 * (m : ℚ) / (period : ℚ) * (period_buses : ℚ),
    trucks := 60 * (m : ℚ) / (period : ℚ) * (period_trucks : ℚ),
    density := flow / period_speed,
    seconds := (kg.1.aggregation : ℚ) * 60 * (period : ℚ) / (m : ℚ) }

/-- Embedding of `aggregate` (`utils/process.py` lines 11-88). -/
def aggregate (data : List CleanRow) (by_lane : Bool) (period : ℕ)
    (unit : TimeUnit) : List AggOut :=
  (aggGroups data by_lane period unit).map (mkAggOut period unit)

/-- Station/date/direction (and optional lane) combination — the group-by
key with the time bucket removed. -/
structure ComboKey where
  id : ℕ
  date : ℕ
  direction : ℕ
  lane : Option ℕ
deriving DecidableEq

/-- Combination part of an `aggregate` group key. -/
def comboOfKey (k : AggKey) : ComboKey :=
  { id := k.id, date := k.date, direction := k.direction, lane := k.lane }

/-- Combination of an aggregated output row. -/
def comboOfOut (g : AggOut) : ComboKey :=
  { id := g.id, date := g.date, direction := g.direction, lane := g.lane }

/-- Combination of a cleaned input row (lane kept only when `by_lane`). -/
def comboOfRow (by_lane : Bool) (r : CleanRow) : ComboKey :=
  { id := r.id, date := r.date, direction := r.direction,
    lane := if by_lane then some r.lane else none }

/-- Group key copied into an aggregated output row. -/
def aggKeyOfOut (g : AggOut) : AggKey :=
  { id := g.id, date := g.date, aggregation := g.aggregation,
    direction := g.direction, lane := g.lane }

theorem sum_map_natCast {α : Type} (l : List α) (g : α → ℕ) :
    (l.map (fun a => ((g a : ℕ) : ℚ))).sum = (((l.map g).sum : ℕ) : ℚ) := by
  induction l with
  | nil => simp
  | cons a t ih => push_cast [List.map_cons, List.sum_cons, ih]; ring

theorem length_filter_key {α κ : Type} [DecidableEq κ] (data : List α)
    (f : α → κ) (k : κ) :
    (data.filter (fun r => decide (f r = k))).length = (data.map f).count k := by
  rw [← List.countP_eq_length_filter, List.count_eq_countP, List.countP_map]
  congr 1

theorem sum_counts_dedup_filter {κ : Type} [DecidableEq κ] (ks : List κ)
    (p : κ → Bool) :
    ((ks.dedup.filter p).map (fun k => ((ks.count k : ℕ) : ℚ))).sum =
      ((ks.countP p : ℕ) : ℚ) := by
  rw [sum_map_natCast (ks.dedup.filter p) (fun k => ks.count k)]
  norm_cast
  exact List.sum_map_count_dedup_filter_eq_countP p ks

/-- C3: every aggregated group's `flow` is the member count scaled by
`60 * period_multiplier / bucket_length` (vehicles per hour, with the
factor-60 correction when the bucket length is in seconds), and summing the
member counts recovered from `flow` over all buckets of one
`(station, date, direction[, lane])` combination gives exactly that
combination's cleaned row count. -/
theorem aggregate_flow_count_roundtrip (data : List CleanRow) (by_lane : Bool)
    (period : ℕ) (unit : TimeUnit) (hp : 0 < period) :
    (∀ g ∈ aggregate data by_lane period unit,
        g.flow = (g.period_flow : ℚ) *
          (60 * (periodMultiplier unit : ℚ) / (period : ℚ))) ∧
      ∀ c : ComboKey,
        (((aggregate data by_lane period unit).filter
              (fun g => decide (comboOfOut g = c))).map
            (fun g => g.flow * (period : ℚ) /
              (60 * (periodMultiplier unit : ℚ)))).sum =
          ((data.filter (fun r => decide (comboOfRow by_lane r = c))).length : ℚ) := by
  have hpq : (period : ℚ) ≠ 0 := by
    exact_mod_cast Nat.pos_iff_ne_zero.mp hp
  have hmq : (60 : ℚ) * (periodMultiplier unit : ℚ) ≠ 0 := by
    cases unit <;> norm_num [periodMultiplier]
  constructor
  · intro g hg
    obtain ⟨kg, _, rfl⟩ := List.mem_map.mp hg
    show 60 * (periodMultiplier unit : ℚ) / (period : ℚ) * (kg.2.length : ℚ) =
      (kg.2.length : ℚ) * (60 * (periodMultiplier unit : ℚ) / (period : ℚ))
    ring
  · intro c
    have hagg : aggregate data by_lane period unit =
        ((data.map (aggKeyOf by_lane unit period)).dedup).map
          (fun k => mkAggOut period unit
            (k, data.filter (fun r => decide (aggKeyOf by_lane unit period r = k)))) := by
      rw [aggregate, aggGroups, List.map_map]
      rfl
    rw [hagg, List.filter_map, List.map_map]
    have hfun : ((fun g => g.flow * (period : ℚ) /
          (60 * (periodMultiplier unit : ℚ))) ∘
          (fun k => mkAggOut period unit
            (k, data.filter (fun r => decide (aggKeyOf by_lane unit period r = k))))) =
        (fun k => (((data.map (aggKeyOf by_lane unit period)).count k : ℕ) : ℚ)) := by
      funext k
      show 60 * (periodMultiplier unit : ℚ) / (period : ℚ) *
          ((data.filter (fun r => decide (aggKeyOf by_lane unit period r = k))).length : ℚ) *
          (period : ℚ) / (60 * (periodMultiplier unit : ℚ)) = _
      rw [length_filter_key data (aggKeyOf by_lane unit period) k]
      field_simp
    have hpred : ((fun g => decide (comboOfOut g = c)) ∘
          (fun k => mkAggOut period unit
            (k, data.filter (fun r => decide (aggKeyOf by_lane unit period r = k))))) =
        (fun k => decide (comboOfKey k = c)) := rfl
    rw [hfun, hpred, sum_counts_dedup_filter, List.countP_map]
    have hrow : ((fun k => decide (comboOfKey k = c)) ∘ aggKeyOf by_lane unit period) =
        (fun r => decide (comboOfRow by_lane r = c)) := rfl
    rw [hrow, List.countP_eq_length_filter]

/-- Singleton cleaned table used to witness the aggregator theorems. -/
def sampleCleanData : List CleanRow := [annotate 2019 270 sampleRaw]

/-- Group formed by the aggregator on `sampleCleanData` with a five-minute
bucket. -/
def sampleGroup : AggKey × List CleanRow :=
  (aggKeyOf false TimeUnit.min 5 (annotate 2019 270 sampleRaw), sampleCleanData)

/-- Witness for `aggregate_flow_count_roundtrip` on a one-row table with a
five-minute bucket. -/
theorem aggregate_flow_count_roundtrip_witness :
    0 < 5 ∧
      (mkAggOut 5 TimeUnit.min sampleGroup).flow =
        ((mkAggOut 5 TimeUnit.min sampleGroup).period_flow : ℚ) *
          (60 * (periodMultiplier TimeUnit.min : ℚ) / ((5 : ℕ) : ℚ)) ∧
      (((aggregate sampleCleanData false 5 TimeUnit.min).filter
            (fun g => decide (comboOfOut g = comboOfRow false (annotate 2019 270 sampleRaw)))).map
          (fun g => g.flow * ((5 : ℕ) : ℚ) /
            (60 * (periodMultiplier TimeUnit.min : ℚ)))).sum =
        ((sampleCleanData.filter
            (fun r => decide (comboOfRow false r =
              comboOfRow false (annotate 2019 270 sampleRaw)))).length : ℚ) := by
  have h := aggregate_flow_count_roundtrip sampleCleanData false 5 TimeUnit.min
    (by decide)
  have hkg : sampleGroup ∈ aggGroups sampleCleanData false 5 TimeUnit.min := by
    decide
  have hg : mkAggOut 5 TimeUnit.min sampleGroup ∈
      aggregate sampleCleanData false 5 TimeUnit.min :=
    List.mem_map_of_mem (mkAggOut 5 TimeUnit.min) hkg
  exact ⟨by decide, h.1 _ hg, h.2 (comboOfRow false (annotate 2019 270 sampleRaw))⟩

/-- C9: every group the aggregator forms is non-empty — the harmonic mean is
never taken of an empty speed list — and a key absent from the data yields
no output row (zero-member buckets are absent, not present-with-zero). -/
theorem aggregate_no_empty_groups (data : List CleanRow) (by_lane : Bool)
    (period : ℕ) (unit : TimeUnit) :
    (∀ kg ∈ aggGroups data by_lane period unit, kg.2 ≠ []) ∧
      ∀ k : AggKey, k ∉ data.map (aggKeyOf by_lane unit period) →
        k ∉ (aggregate data by_lane period unit).map aggKeyOfOut := by
  constructor
  · intro kg hkg
    obtain ⟨k, hk, rfl⟩ := List.mem_map.mp hkg
    have hk2 : k ∈ data.map (aggKeyOf by_lane unit period) := List.mem_dedup.mp hk
    obtain ⟨r, hr, hrk⟩ := List.mem_map.mp hk2
    intro hemp
    have : r ∈ data.filter (fun r => decide (aggKeyOf by_lane unit period r = k)) :=
      List.mem_filter.mpr ⟨hr, by simp [hrk]⟩
    have hemp2 : data.filter (fun r => decide (aggKeyOf by_lane unit period r = k)) = [] :=
      hemp
    rw [hemp2] at this
    cases this
  · intro k hk hmem
    apply hk
    obtain ⟨g, hg, hgk⟩ := List.mem_map.mp hmem
    obtain ⟨kg, hkg, rfl⟩ := List.mem_map.mp hg
    obtain ⟨k2, hk2, rfl⟩ := List.mem_map.mp hkg
    have : aggKeyOfOut (mkAggOut period unit
        (k2, data.filter (fun r => decide (aggKeyOf by_lane unit period r = k2)))) = k2 := rfl
    rw [this] at hgk
    rw [← hgk]
    exact List.mem_dedup.mp hk2

/-- Key absent from `sampleCleanData`, witnessing the absent-bucket half of
`aggregate_no_empty_groups`. -/
def absentKey : AggKey :=
  { id := 0, date := 0, aggregation := 0, direction := 0, lane := none }

/-- Witness for `aggregate_no_empty_groups` on a one-row table. -/
theorem aggregate_no_empty_groups_witness :
    sampleGroup ∈ aggGroups sampleCleanData false 5 TimeUnit.min ∧
      sampleGroup.2 ≠ [] ∧
      absentKey ∉ sampleCleanData.map (aggKeyOf false TimeUnit.min 5) ∧
      absentKey ∉ (aggregate sampleCleanData false 5 TimeUnit.min).map
        aggKeyOfOut := by
  have h := aggregate_no_empty_groups sampleCleanData false 5 TimeUnit.min
  have hkg : sampleGroup ∈ aggGroups sampleCleanData false 5 TimeUnit.min := by
    decide
  have habs : absentKey ∉ sampleCleanData.map (aggKeyOf false TimeUnit.min 5) := by
    decide
  exact ⟨hkg, h.1 sampleGroup hkg, habs, h.2 absentKey habs⟩

/-- Truncation toward zero of a rational, the effect of pandas
`astype(int)` on a float column. -/
def truncQ (q : ℚ) : ℤ := q.num / (q.den : ℤ)

/-- Maximum of a pandas series (`.max()`); the empty series gives `NaN` in
pandas and is modelled by `0` — `bagging` is only ever applied to non-empty
tables and every theorem below assumes non-emptiness. -/
def qmax : List ℚ → ℚ
  | [] => 0
  | a :: t => t.foldl (fun x y => if x ≤ y then y else x) a

/-- Group-by key of `bagging`: station id, direction and the two truncated
grid-cell coordinates. -/
structure BagKey where
  id : ℕ
  direction : ℕ
  grid_density : ℤ
  grid_flow : ℤ
deriving DecidableEq

/-- Cell assignment of one aggregated row, given the two cell widths
(`grid_density_size`, `grid_flow_size`). -/
def bagKeyOf (gdsize gfsize : ℚ) (g : AggOut) : BagKey :=
  { id := g.id, direction := g.direction,
    grid_density := truncQ (g.density / gdsize),
    grid_flow := truncQ (g.flow / gfsize) }

/-- Cell assignment used by `bagging`: the cell widths are the maximum
observed density and flow divided by the configured grid counts
(`utils/process.py` lines 116-126). -/
def baggingKey (agg_data : List AggOut) (grid_size_x grid_size_y : ℕ) :
    AggOut → BagKey :=
  bagKeyOf (qmax (agg_data.map (·.density)) / (grid_size_x : ℚ))
    (qmax (agg_data.map (·.flow)) / (grid_size_y : ℚ))

/-- Output record of `bagging`: one row per non-empty grid cell. -/
structure BagRow where
  id : ℕ
  direction : ℕ
  grid_density : ℤ
  grid_flow : ℤ
  bag_size : ℕ
  sum_flow : ℚ
  sum_density : ℚ
  centroid_flow : ℚ
  centroid_density : ℚ
  weight : ℚ
deriving DecidableEq

/-- Key fields copied into a bagged row. -/
def bagKeyOfRow (b : BagRow) : BagKey :=
  { id := b.id, direction := b.direction, grid_density := b.grid_density,
    grid_flow := b.grid_flow }

/-- Computation of one bagged row from one grid-cell group; `n` is the total
row count of the input table (`utils/process.py` lines 129-138). -/
def mkBagRow (n : ℕ) (kg : BagKey × List AggOut) : BagRow :=
  { id := kg.1.id, direction := kg.1.direction,
    grid_density := kg.1.grid_density, grid_flow := kg.1.grid_flow,
    bag_size := kg.2.length,
    sum_flow := (kg.2.map (·.flow)).sum,
    sum_density := (kg.2.map (·.density)).sum,
    centroid_flow := (kg.2.map (·.flow)).sum / (kg.2.length : ℚ),
    centroid_density := (kg.2.map (·.density)).sum / (kg.2.length : ℚ),
    weight := (kg.2.length : ℚ) / (n : ℚ) }

/-- Embedding of the grouped output of `bagging`
(`utils/process.py` lines 91-146). -/
def bagging (agg_data : List AggOut) (grid_size_x grid_size_y : ℕ) :
    List BagRow :=
  ((agg_data.map (baggingKey agg_data grid_size_x grid_size_y)).dedup).map
    (fun k => mkBagRow agg_data.length
      (k, agg_data.filter
        (fun g => decide (baggingKey agg_data grid_size_x grid_size_y g = k))))

theorem sum_map_div {α : Type} (l : List α) (f : α → ℚ) (c : ℚ) :
    (l.map (fun x => f x / c)).sum = (l.map f).sum / c := by
  induction l with
  | nil => simp
  | cons a t ih => simp [List.map_cons, List.sum_cons, ih, add_div]

theorem sum_counts_dedup {κ : Type} [DecidableEq κ] (ks : List κ) :
    (ks.dedup.map (fun k => ((ks.count k : ℕ) : ℚ))).sum =
      ((ks.length : ℕ) : ℚ) := by
  rw [sum_map_natCast ks.dedup (fun k => ks.count k)]
  norm_cast
  exact List.sum_map_count_dedup_eq_length ks

/-- C2: on a non-empty aggregated table the weights of the bagged records
sum to exactly `1`; each weight is the bag's member count divided by the
total row count, and each input row falls in exactly one output bag (its
grid cell). -/
theorem bagging_weights_sum_one (agg_data : List AggOut)
    (grid_size_x grid_size_y : ℕ) (h : agg_data ≠ []) :
    ((bagging agg_data grid_size_x grid_size_y).map (·.weight)).sum = 1 ∧
      (∀ b ∈ bagging agg_data grid_size_x grid_size_y,
        b.weight = (b.bag_size : ℚ) / (agg_data.length : ℚ)) ∧
      ∀ g ∈ agg_data, ∃! b, b ∈ bagging agg_data grid_size_x grid_size_y ∧
        bagKeyOfRow b = baggingKey agg_data grid_size_x grid_size_y g := by
  have hn : (agg_data.length : ℚ) ≠ 0 := by
    have := List.length_pos.mpr h
    exact_mod_cast Nat.pos_iff_ne_zero.mp this
  refine ⟨?_, ?_, ?_⟩
  · rw [bagging, List.map_map]
    have hfun : ((fun b => b.weight) ∘
          (fun k => mkBagRow agg_data.length
            (k, agg_data.filter
              (fun g => decide (baggingKey agg_data grid_size_x grid_size_y g = k))))) =
        (fun k => (((agg_data.map (baggingKey agg_data grid_size_x grid_size_y)).count k : ℕ) : ℚ) /
          (agg_data.length : ℚ)) := by
      funext k
      show ((agg_data.filter
          (fun g => decide (baggingKey agg_data grid_size_x grid_size_y g = k))).length : ℚ) /
          (agg_data.length : ℚ) = _
      rw [length_filter_key agg_data (baggingKey agg_data grid_size_x grid_size_y) k]
    rw [hfun, sum_map_div, sum_counts_dedup]
    rw [List.length_map]
    exact div_self hn
  · intro b hb
    obtain ⟨k, _, rfl⟩ := List.mem_map.mp hb
    rfl
  · intro g hg
    refine ⟨mkBagRow agg_data.length
      (baggingKey agg_data grid_size_x grid_size_y g,
        agg_data.filter (fun x => decide (baggingKey agg_data grid_size_x grid_size_y x =
          baggingKey agg_data grid_size_x grid_size_y g))), ⟨?_, rfl⟩, ?_⟩
    · apply List.mem_map_of_mem
      exact List.mem_dedup.mpr (List.mem_map_of_mem _ hg)
    · rintro b ⟨hb, hbk⟩
      obtain ⟨k, _, rfl⟩ := List.mem_map.mp hb
      have hk : k = baggingKey agg_data grid_size_x grid_size_y g := hbk
      rw [hk]

/-- Literal aggregated row used to witness the bagging theorems. -/
def sampleAgg : AggOut :=
  { id := 146, date := dateOf 2019 270, aggregation := 84, direction := 1,
    lane := none, period_speed := 80, period_flow := 1, period_cars := 1,
    period_buses := 0, period_trucks := 0, flow := 12, cars := 12, buses := 0,
    trucks := 0, density := 3 / 20, seconds := 25200 }

/-- Witness for `bagging_weights_sum_one` on a one-row table with the
default grid. -/
theorem bagging_weights_sum_one_witness :
    ([sampleAgg] : List AggOut) ≠ [] ∧
      ((bagging [sampleAgg] 70 400).map (·.weight)).sum = 1 := by
  have hne : ([sampleAgg] : List AggOut) ≠ [] := by simp
  exact ⟨hne, (bagging_weights_sum_one [sampleAgg] 70 400 hne).1⟩

/-- Column-level model of a pandas `DataFrame`: an ordered association list
of column name to column values.  Used to state what `bagging` does to the
caller's table object. -/
abbrev DFrame : Type := List (String × List ℚ)

/-- Column names of a frame, in order. -/
def dfColumns (df : DFrame) : List String := df.map (·.1)

/-- Column access `df[c]` (`[]` when the column is absent). -/
def getCol (df : DFrame) (c : String) : List ℚ :=
  match df.find? (fun p => p.1 == c) with
  | some p => p.2
  | none => []

/-- Column assignment `df[c] = v`: replaces the column in place when it
exists, otherwise appends it (pandas appends new columns at the end). -/
def setCol (df : DFrame) (c : String) (v : List ℚ) : DFrame :=
  if df.any (fun p => p.1 == c) then
    df.map (fun p => if p.1 == c then (c, v) else p)
  else df ++ [(c, v)]

/-- Effect of `bagging` on the caller's aggregated table
(`utils/process.py` lines 124-126): the two statements
`agg_data["grid_density"] = agg_data["density"] / grid_density_size` and
`agg_data["grid_flow"] = agg_data["flow"] / grid_flow_size` mutate the
argument frame in place; the subsequent `astype` rebinds only the local
name, so the caller keeps the un-truncated quotients. -/
def bagging_mutation (df : DFrame) (grid_size_x grid_size_y : ℕ) : DFrame :=
  setCol
    (setCol df ("grid_density")
      ((getCol df ("density")).map
        (fun v => v / (qmax (getCol df ("density")) / (grid_size_x : ℚ)))))
    ("grid_flow")
    ((getCol df ("flow")).map
      (fun v => v / (qmax (getCol df ("flow")) / (grid_size_y : ℚ))))

theorem getCol_append_new (df : DFrame) (c : String) (v : List ℚ)
    (h : c ∉ dfColumns df) : getCol (df ++ [(c, v)]) c = v := by
  have hnone : df.find? (fun p => p.1 == c) = none := by
    rw [List.find?_eq_none]
    intro p hp hpc
    exact h (List.mem_map.mpr ⟨p, hp, by simpa using hpc⟩)
  rw [getCol, List.find?_append, hnone]
  simp [List.find?]

theorem getCol_append_other (df : DFrame) (c c2 : String) (v : List ℚ)
    (h : c2 ≠ c) : getCol (df ++ [(c, v)]) c2 = getCol df c2 := by
  have hcc : (c == c2) = false := beq_eq_false_iff_ne.mpr (fun hcc => h hcc.symm)
  rw [getCol, getCol, List.find?_append]
  rw [show ([(c, v)].find? (fun p => p.1 == c2)) = none by simp [List.find?, hcc]]
  rw [Option.or_none]

theorem setCol_eq_append (df : DFrame) (c : String) (v : List ℚ)
    (h : c ∉ dfColumns df) : setCol df c v = df ++ [(c, v)] := by
  rw [setCol, if_neg]
  intro hany
  obtain ⟨p, hp, hpc⟩ := List.any_eq_true.mp hany
  exact h (List.mem_map.mpr ⟨p, hp, by simpa using hpc⟩)

/-- C10 counterexample: `bagging` does not leave its input table unchanged —
on a table with columns `id, direction, density, flow` the caller's frame
has two extra columns after the call. -/
theorem bagging_mutates_callers_table :
    dfColumns (bagging_mutation
        [(("id"), [1]), (("direction"), [1]), (("density"), [2]), (("flow"), [3])] 1 1) ≠
      dfColumns [(("id"), [1]), (("direction"), [1]), (("density"), [2]), (("flow"), [3])] := by
  decide

/-- C10 amended: `bagging` mutates the caller's aggregated table by
appending the two columns `grid_density` and `grid_flow` (the un-truncated
cell coordinates); every pre-existing column keeps its values, and the
bagged output is a separate table. -/
theorem bagging_mutation_spec (df : DFrame) (grid_size_x grid_size_y : ℕ)
    (hd : ("grid_density") ∉ dfColumns df)
    (hf : ("grid_flow") ∉ dfColumns df) :
    (∀ c ∈ dfColumns df, getCol (bagging_mutation df grid_size_x grid_size_y) c = getCol df c) ∧
      getCol (bagging_mutation df grid_size_x grid_size_y) ("grid_density") =
        (getCol df ("density")).map
          (fun v => v / (qmax (getCol df ("density")) / (grid_size_x : ℚ))) ∧
      getCol (bagging_mutation df grid_size_x grid_size_y) ("grid_flow") =
        (getCol df ("flow")).map
          (fun v => v / (qmax (getCol df ("flow")) / (grid_size_y : ℚ))) ∧
      dfColumns (bagging_mutation df grid_size_x grid_size_y) =
        dfColumns df ++ [("grid_density"), ("grid_flow")] := by
  have hd2 : ("grid_flow") ∉ dfColumns (df ++ [(("grid_density"),
      (getCol df ("density")).map
        (fun v => v / (qmax (getCol df ("density")) / (grid_size_x : ℚ))))]) := by
    intro hmem
    rw [dfColumns, List.map_append] at hmem
    rcases List.mem_append.mp hmem with hmem | hmem
    · exact hf hmem
    · simp at hmem
  have hrw : bagging_mutation df grid_size_x grid_size_y =
      (df ++ [(("grid_density"),
        (getCol df ("density")).map
          (fun v => v / (qmax (getCol df ("density")) / (grid_size_x : ℚ))))]) ++
        [(("grid_flow"),
          (getCol df ("flow")).map
            (fun v => v / (qmax (getCol df ("flow")) / (grid_size_y : ℚ))))] := by
    rw [bagging_mutation, setCol_eq_append df _ _ hd, setCol_eq_append _ _ _ hd2]
  refine ⟨?_, ?_, ?_, ?_⟩
  · intro c hc
    have hc1 : c ≠ ("grid_density") := fun hcc => hd (hcc ▸ hc)
    have hc2 : c ≠ ("grid_flow") := fun hcc => hf (hcc ▸ hc)
    rw [hrw, getCol_append_other _ _ _ _ hc2, getCol_append_other _ _ _ _ hc1]
  · rw [hrw, getCol_append_other _ _ _ _ (by decide), getCol_append_new _ _ _ hd]
  · rw [hrw, getCol_append_new _ _ _ hd2]
  · rw [hrw]
    simp [dfColumns]

/-- Witness for `bagging_mutation_spec` on a four-column table. -/
theorem bagging_mutation_spec_witness :
    (("grid_density") ∉ dfColumns
        [(("id"), [1]), (("direction"), [1]), (("density"), [2]), (("flow"), [3])]) ∧
      (("grid_flow") ∉ dfColumns
        [(("id"), [1]), (("direction"), [1]), (("density"), [2]), (("flow"), [3])]) ∧
      getCol (bagging_mutation
          [(("id"), [1]), (("direction"), [1]), (("density"), [2]), (("flow"), [3])] 70 400)
          ("density") =
        getCol [(("id"), [1]), (("direction"), [1]), (("density"), [2]), (("flow"), [3])]
          ("density") ∧
      dfColumns (bagging_mutation
          [(("id"), [1]), (("direction"), [1]), (("density"), [2]), (("flow"), [3])] 70 400) =
        dfColumns [(("id"), [1]), (("direction"), [1]), (("density"), [2]), (("flow"), [3])] ++
          [("grid_density"), ("grid_flow")] := by
  have hd : ("grid_density") ∉ dfColumns
      [(("id"), [1]), (("direction"), [1]), (("density"), [2]), (("flow"), [3])] := by
    decide
  have hf : ("grid_flow") ∉ dfColumns
      [(("id"), [1]), (("direction"), [1]), (("density"), [2]), (("flow"), [3])] := by
    decide
  have h := bagging_mutation_spec
    [(("id"), [1]), (("direction"), [1]), (("density"), [2]), (("flow"), [3])] 70 400 hd hf
  exact ⟨hd, hf, h.1 ("density") (by decide), h.2.2.2⟩

/-- Window/gap unit multiplier of `rolling_window`
(`utils/process.py` lines 189-201): minutes count 60 seconds, seconds 1. -/
def rwMult : TimeUnit → ℕ
  | .min => 60
  | .sec => 1

/-- Python `range(a, b, step)` for a positive step, over `ℤ`:
`max 0 (ceil ((b-a)/step))` elements `a, a+step, ...`. -/
def rangeZ (a b step : ℤ) : List ℤ :=
  (List.range (if a < b then ((b - a + step - 1) / step).toNat else 0)).map
    (fun i : ℕ => a + (i : ℤ) * step)

/-- Window start times enumerated by `rolling_window` for one
`(year, day, lane)` (`utils/process.py` lines 213-217), in hundredths of a
second: `range(hour_from*60*60*100, hour_to*60*60*100 - window*mult*100,
gap*mult*100)`. -/
def rolling_window_begin_times (hour_from hour_to window_interval gap_interval : ℕ)
    (wunit gunit : TimeUnit) : List ℤ :=
  rangeZ ((hour_from : ℤ) * 60 * 60 * 100)
    ((hour_to : ℤ) * 60 * 60 * 100 - (window_interval : ℤ) * (rwMult wunit : ℤ) * 100)
    ((gap_interval : ℤ) * (rwMult gunit : ℤ) * 100)

/-- Length of the overlap of the half-open intervals `[t1, t1+w)` and
`[t2, t2+w)`. -/
def overlapLen (t1 t2 w : ℤ) : ℤ := max 0 (min (t1 + w) (t2 + w) - max t1 t2)

theorem rangeZ_getD (a b step : ℤ) (i : ℕ)
    (hi : i < (rangeZ a b step).length) :
    (rangeZ a b step).getD i 0 = a + (i : ℤ) * step := by
  have hi2 : i < (List.range (if a < b then
      ((b - a + step - 1) / step).toNat else 0)).length := by
    simpa [rangeZ] using hi
  have h1 : (rangeZ a b step).getD i 0 =
      a + ((List.range (if a < b then
        ((b - a + step - 1) / step).toNat else 0)).getD i 0 : ℤ) * step :=
    getD_map_of_lt (fun j : ℕ => a + (j : ℤ) * step) _ i 0 0 hi2
  rw [h1]
  have h2 : (List.range (if a < b then
      ((b - a + step - 1) / step).toNat else 0)).getD i 0 = i := by
    rw [List.getD_eq_getElem _ _ hi2]
    exact List.getElem_range _ _
  rw [h2]

theorem overlapLen_eq_zero {t1 t2 w : ℤ} (h : t1 + w ≤ t2 ∨ t2 + w ≤ t1) :
    overlapLen t1 t2 w = 0 := by
  rw [overlapLen]
  rcases h with h | h <;> omega

theorem overlapLen_of_lt {t1 t2 w : ℤ} (h1 : t1 ≤ t2) (h2 : t2 ≤ t1 + w) :
    overlapLen t1 t2 w = t1 + w - t2 := by
  rw [overlapLen]
  omega

/-- C6: the start times generated for one `(year, day, lane)` form an
arithmetic sequence beginning at `hour_from` with step `gap` (in hundredths
of a second, the code's common unit); with windows `[t, t + W)` this gives:
when `G ≥ W` no two generated windows overlap, and when `G < W` two
consecutive windows overlap by exactly `W − G` time units. -/
theorem rolling_window_arithmetic (hour_from hour_to window_interval gap_interval : ℕ)
    (wunit gunit : TimeUnit) (_hw : 0 < window_interval) (hg : 0 < gap_interval) :
    (∀ i, i < (rolling_window_begin_times hour_from hour_to window_interval
          gap_interval wunit gunit).length →
        (rolling_window_begin_times hour_from hour_to window_interval
          gap_interval wunit gunit).getD i 0 =
          (hour_from : ℤ) * 60 * 60 * 100 +
            (i : ℤ) * ((gap_interval : ℤ) * (rwMult gunit : ℤ) * 100)) ∧
      ((window_interval : ℤ) * (rwMult wunit : ℤ) ≤
          (gap_interval : ℤ) * (rwMult gunit : ℤ) →
        ∀ i j, i < (rolling_window_begin_times hour_from hour_to window_interval
            gap_interval wunit gunit).length →
          j < (rolling_window_begin_times hour_from hour_to window_interval
            gap_interval wunit gunit).length → i ≠ j →
          overlapLen
            ((rolling_window_begin_times hour_from hour_to window_interval
              gap_interval wunit gunit).getD i 0)
            ((rolling_window_begin_times hour_from hour_to window_interval
              gap_interval wunit gunit).getD j 0)
            ((window_interval : ℤ) * (rwMult wunit : ℤ) * 100) = 0) ∧
      ((gap_interval : ℤ) * (rwMult gunit : ℤ) <
          (window_interval : ℤ) * (rwMult wunit : ℤ) →
        ∀ i, i + 1 < (rolling_window_begin_times hour_from hour_to window_interval
            gap_interval wunit gunit).length →
          overlapLen
            ((rolling_window_begin_times hour_from hour_to window_interval
              gap_interval wunit gunit).getD i 0)
            ((rolling_window_begin_times hour_from hour_to window_interval
              gap_interval wunit gunit).getD (i + 1) 0)
            ((window_interval : ℤ) * (rwMult wunit : ℤ) * 100) =
            ((window_interval : ℤ) * (rwMult wunit : ℤ) -
              (gap_interval : ℤ) * (rwMult gunit : ℤ)) * 100) := by
  set G : ℤ := (gap_interval : ℤ) * (rwMult gunit : ℤ) with hG
  set W : ℤ := (window_interval : ℤ) * (rwMult wunit : ℤ) with hW
  have hGpos : 0 < G := by
    rw [hG]
    have h1 : (0 : ℤ) < (gap_interval : ℤ) := by exact_mod_cast hg
    have h2 : (0 : ℤ) < (rwMult gunit : ℤ) := by
      cases gunit <;> norm_num [rwMult]
    positivity
  have harith : ∀ i, i < (rolling_window_begin_times hour_from hour_to
      window_interval gap_interval wunit gunit).length →
      (rolling_window_begin_times hour_from hour_to window_interval
        gap_interval wunit gunit).getD i 0 =
        (hour_from : ℤ) * 60 * 60 * 100 + (i : ℤ) * (G * 100) := by
    intro i hi
    rw [rolling_window_begin_times] at hi ⊢
    rw [rangeZ_getD _ _ _ _ hi]
  refine ⟨harith, ?_, ?_⟩
  · intro hWG i j hi hj hij
    rw [harith i hi, harith j hj]
    rcases Nat.lt_or_ge i j with hlt | hge
    · apply overlapLen_eq_zero
      left
      have hij1 : (i : ℤ) + 1 ≤ (j : ℤ) := by exact_mod_cast hlt
      nlinarith [hGpos, hWG]
    · have hlt : j < i := Nat.lt_of_le_of_ne hge (fun hcc => hij hcc.symm)
      apply overlapLen_eq_zero
      right
      have hij1 : (j : ℤ) + 1 ≤ (i : ℤ) := by exact_mod_cast hlt
      nlinarith [hGpos, hWG]
  · intro hGW i hi1
    have hi : i < (rolling_window_begin_times hour_from hour_to window_interval
        gap_interval wunit gunit).length := Nat.lt_of_succ_lt hi1
    rw [harith i hi, harith (i + 1) hi1]
    have hle1 : (hour_from : ℤ) * 60 * 60 * 100 + (i : ℤ) * (G * 100) ≤
        (hour_from : ℤ) * 60 * 60 * 100 + ((i : ℤ) + 1) * (G * 100) := by
      nlinarith [hGpos]
    have hle2 : (hour_from : ℤ) * 60 * 60 * 100 + ((i : ℤ) + 1) * (G * 100) ≤
        (hour_from : ℤ) * 60 * 60 * 100 + (i : ℤ) * (G * 100) + W * 100 := by
      nlinarith [hGW]
    push_cast
    rw [overlapLen_of_lt hle1 hle2]
    ring

/-- Witness for `rolling_window_arithmetic`: five-minute windows every two
minutes between 06:00 and 08:00. -/
theorem rolling_window_arithmetic_witness :
    0 < 5 ∧ 0 < 2 ∧
      (rolling_window_begin_times 6 8 5 2 TimeUnit.min TimeUnit.min).getD 1 0 =
        2172000 ∧
      overlapLen
        ((rolling_window_begin_times 6 8 5 2 TimeUnit.min TimeUnit.min).getD 0 0)
        ((rolling_window_begin_times 6 8 5 2 TimeUnit.min TimeUnit.min).getD 1 0)
        30000 = 18000 := by
  have h := rolling_window_arithmetic 6 8 5 2 TimeUnit.min TimeUnit.min
    (by decide) (by decide)
  refine ⟨by decide, by decide, ?_, ?_⟩
  · have h1 := h.1 1 (by decide)
    rw [h1]
    norm_num [rwMult]
  · have h2 := h.2.2 (by norm_num [rwMult]) 0 (by decide)
    have hsimp : ((5 : ℕ) : ℤ) * (rwMult TimeUnit.min : ℤ) * 100 = 30000 := by
      norm_num [rwMult]
    have hval : (((5 : ℕ) : ℤ) * (rwMult TimeUnit.min : ℤ) -
        ((2 : ℕ) : ℤ) * (rwMult TimeUnit.min : ℤ)) * 100 = 18000 := by
      norm_num [rwMult]
    rw [hsimp, hval] at h2
    exact h2

/-- Fitted frontier model as stored in `ModelResults._models`: the fitted
arrays exposed by the pystoned model object (`x`, `y`, `get_frontier()`,
`get_alpha()`, `get_beta()`, `get_lamda()`, optional `z`, and the problem
status). -/
structure FittedModel where
  x : List ℚ
  y : List ℚ
  frontier : List ℚ
  alpha : List ℚ
  beta : List ℚ
  lamda : List ℚ
  z : Option (List ℚ)
  status : ℤ
deriving DecidableEq

/-- Row of the comparison table built by `ModelResults.get_estimate`. -/
structure EstRow where
  density : ℚ
  flow : ℚ
  context : Option ℚ
  context_estimate : Option ℚ
  flow_estimate : ℚ
  speed : ℚ
  speed_estimate : ℚ
deriving DecidableEq

/-- Insertion step of the by-density sort. -/
def insertByKey {α : Type} (key : α → ℚ) (p : α) : List α → List α
  | [] => [p]
  | q :: t => if key p ≤ key q then p :: q :: t else q :: insertByKey key p t

/-- Sort of the stacked data rows by their first (density) component,
modelling `data[np.argsort(data[:, 0])]` (insertion sort; `np.argsort` is
unstable but any by-density sort realizes it up to tie order, and no claim
here depends on tie order). -/
def sortByKey {α : Type} (key : α → ℚ) : List α → List α
  | [] => []
  | p :: t => insertByKey key p (sortByKey key t)

/-- Embedding of `ModelResults.get_estimate` (`utils/models.py` lines
216-296).  The stacked `x/y[/z/z_coef]/y_hat` rows are sorted by density and
unpacked; then the code computes `speed = y / x` from the sorted columns but
`speed_hat = y_hat / x` from the ORIGINAL (pre-sort) `y_hat` against the
sorted `x` — reproduced here verbatim via `m.frontier.getD j 0`. -/
def get_estimate (m : FittedModel) (context : Option String) : List EstRow :=
  match context with
  | none =>
    let triples := (m.x.zip (m.y.zip m.frontier)).map
      (fun p => (p.1, p.2.1, p.2.2))
    let sorted := sortByKey (fun p : ℚ × ℚ × ℚ => p.1) triples
    let xs := sorted.map (·.1)
    let ys := sorted.map (·.2.1)
    let fs := sorted.map (·.2.2)
    (List.range sorted.length).map (fun j =>
      { density := xs.getD j 0, flow := ys.getD j 0, context := none,
        context_estimate := none, flow_estimate := fs.getD j 0,
        speed := ys.getD j 0 / xs.getD j 0,
        speed_estimate := m.frontier.getD j 0 / xs.getD j 0 })
  | some _ =>
    let zl := m.z.getD []
    let zcoef := m.lamda.getD 0 0
    let quads := (m.x.zip (m.y.zip (zl.zip m.frontier))).map
      (fun p => (p.1, p.2.1, p.2.2.1, p.2.2.2))
    let sorted := sortByKey (fun p : ℚ × ℚ × ℚ × ℚ => p.1) quads
    let xs := sorted.map (·.1)
    let ys := sorted.map (·.2.1)
    let zs := sorted.map (·.2.2.1)
    let fs := sorted.map (·.2.2.2)
    (List.range sorted.length).map (fun j =>
      { density := xs.getD j 0, flow := ys.getD j 0,
        context := some (zs.getD j 0), context_estimate := some zcoef,
        flow_estimate := fs.getD j 0,
        speed := ys.getD j 0 / xs.getD j 0,
        speed_estimate := m.frontier.getD j 0 / xs.getD j 0 })

/-- Stored model whose density array is not already sorted; it exposes the
`get_estimate` slip. -/
def buggyModel : FittedModel :=
  { x := [2, 1], y := [6, 2], frontier := [6, 2], alpha := [0], beta := [0],
    lamda := [], z := none, status := 1 }

/-- C7: on the stored model with `x = [2,1]`, `y = [6,2]`,
`frontier = [6,2]` the table is sorted by density and `speed = flow /
density` holds row-wise, but `speed_estimate` is `[6, 1]` whereas
`flow_estimate / density` is `[2, 3]`: the code divides the pre-sort
frontier array by the post-sort density array, contradicting the claimed
`speed_estimate = flow_estimate / density`. -/
theorem get_estimate_speed_estimate_mismatch :
    (get_estimate buggyModel none).map (·.density) = [1, 2] ∧
      (get_estimate buggyModel none).map (fun r => r.flow / r.density) =
        (get_estimate buggyModel none).map (·.speed) ∧
      (get_estimate buggyModel none).map (·.speed_estimate) = [6, 1] ∧
      (get_estimate buggyModel none).map (fun r => r.flow_estimate / r.density) =
        [2, 3] ∧
      (get_estimate buggyModel none).map (·.speed_estimate) ≠
        (get_estimate buggyModel none).map (fun r => r.flow_estimate / r.density) := by
  have heval : get_estimate buggyModel none =
      [{ density := 1, flow := 2, context := none, context_estimate := none,
          flow_estimate := 2, speed := 2, speed_estimate := 6 },
        { density := 2, flow := 6, context := none, context_estimate := none,
          flow_estimate := 6, speed := 3, speed_estimate := 1 }] := by
    norm_num [get_estimate, buggyModel, sortByKey, insertByKey, List.range_succ]
  rw [heval]
  norm_num

/-- Quantile component of the composite model key: the literal `"mean"` or
a numeric quantile. -/
inductive Quant where
  | mean
  | q (v : ℚ)
deriving DecidableEq

/-- Composite key of `ModelResults._models`:
`(quantile-or-"mean", penalty, eta, context)`. -/
structure MKey where
  quantile : Quant
  penalty : Option String
  eta : Option ℚ
  context : Option String
deriving DecidableEq

/-- The `_models` dictionary of one `ModelResults` object, as a partial map
from composite keys to fitted models. -/
abbrev ModelStore : Type := MKey → Option FittedModel

/-- Fresh `ModelResults` store (`self._models = dict()`). -/
def emptyStore : ModelStore := fun _ => none

/-- Embedding of `ModelResults._add_model` (`utils/models.py` lines 44-62):
`self._models[quantile, penalty, eta, context] = model`, inserting or
overwriting. -/
def add_model (s : ModelStore) (m : FittedModel) (k : MKey) : ModelStore :=
  fun k2 => if k2 = k then some m else s k2

/-- Message of the `assert` guarding every getter. -/
def notFoundMsg : String := "Model with the specified parameters is not estimated."

/-- Embedding of `ModelResults.get_frontier` (`utils/models.py` lines
91-129): asserts the key is present, then returns the stored model's
frontier values. -/
def get_frontier (s : ModelStore) (k : MKey) : Except String (List ℚ) :=
  match s k with
  | some m => .ok m.frontier
  | none => .error notFoundMsg

/-- Embedding of `ModelResults.get_coefficients`: the `alpha`/`beta` pairs
stacked into one N×2 structure. -/
def get_coefficients (s : ModelStore) (k : MKey) : Except String (List (ℚ × ℚ)) :=
  match s k with
  | some m => .ok (m.alpha.zip m.beta)
  | none => .error notFoundMsg

/-- Embedding of `ModelResults.get_number_of_segments`: `len(alpha)`. -/
def get_number_of_segments (s : ModelStore) (k : MKey) : Except String ℕ :=
  match s k with
  | some m => .ok m.alpha.length
  | none => .error notFoundMsg

/-- Embedding of the store-level `ModelResults.get_estimate`: asserts the
key, then builds the comparison table. -/
def get_estimate_store (s : ModelStore) (k : MKey) : Except String (List EstRow) :=
  match s k with
  | some m => .ok (get_estimate m k.context)
  | none => .error notFoundMsg

/-- Embedding of `ModelResults.get_problem_status`. -/
def get_problem_status (s : ModelStore) (k : MKey) : Except String ℤ :=
  match s k with
  | some m => .ok m.status
  | none => .error notFoundMsg

/-- Embedding of `ModelResults.get_context_estimate`: `get_lamda()[0]`. -/
def get_context_estimate (s : ModelStore) (k : MKey) : Except String ℚ :=
  match s k with
  | some m => .ok (m.lamda.getD 0 0)
  | none => .error notFoundMsg

/-- Store reached from an empty `ModelResults` by a sequence of
`_add_model` calls. -/
def applyAdds (s : ModelStore) (ops : List (MKey × FittedModel)) : ModelStore :=
  ops.foldl (fun s2 p => add_model s2 p.2 p.1) s

theorem applyAdds_not_added (s : ModelStore) (ops : List (MKey × FittedModel))
    (k : MKey) (h : ∀ p ∈ ops, p.1 ≠ k) : applyAdds s ops k = s k := by
  induction ops generalizing s with
  | nil => rfl
  | cons p t ih =>
    rw [applyAdds, List.foldl_cons]
    have hstep := ih (add_model s p.2 p.1)
      (fun q hq => h q (List.mem_cons_of_mem _ hq))
    rw [applyAdds] at hstep
    rw [hstep, add_model,
      if_neg (fun hkp => h p (List.mem_cons_self _ _) hkp.symm)]

/-- C8: a composite key never added fails every getter with the not-found
error (never a default), and after `_add_model` under that key,
`get_frontier` for the same key returns the stored model's frontier
unchanged. -/
theorem model_store_not_found_then_found (ops : List (MKey × FittedModel))
    (k : MKey) (m : FittedModel) (h : ∀ p ∈ ops, p.1 ≠ k) :
    get_frontier (applyAdds emptyStore ops) k = .error notFoundMsg ∧
      get_coefficients (applyAdds emptyStore ops) k = .error notFoundMsg ∧
      get_number_of_segments (applyAdds emptyStore ops) k = .error notFoundMsg ∧
      get_estimate_store (applyAdds emptyStore ops) k = .error notFoundMsg ∧
      get_problem_status (applyAdds emptyStore ops) k = .error notFoundMsg ∧
      get_context_estimate (applyAdds emptyStore ops) k = .error notFoundMsg ∧
      get_frontier (add_model (applyAdds emptyStore ops) m k) k = .ok m.frontier := by
  have hnone : applyAdds emptyStore ops k = none :=
    applyAdds_not_added emptyStore ops k h
  refine ⟨?_, ?_, ?_, ?_, ?_, ?_, ?_⟩
  · rw [get_frontier, hnone]
  · rw [get_coefficients, hnone]
  · rw [get_number_of_segments, hnone]
  · rw [get_estimate_store, hnone]
  · rw [get_problem_status, hnone]
  · rw [get_context_estimate, hnone]
  · rw [get_frontier, add_model]
    simp

/-- Quantile-0.9 key of the spec's `ModelResultsStore` scenario. -/
def keyQ9 : MKey :=
  { quantile := Quant.q (9 / 10), penalty := none, eta := none, context := none }

/-- Mean-model key, distinct from `keyQ9`. -/
def keyMean : MKey :=
  { quantile := Quant.mean, penalty := none, eta := none, context := none }

/-- Witness for `model_store_not_found_then_found`: a store holding only a
mean model, queried at the 0.9-quantile key before and after adding a model
there. -/
theorem model_store_not_found_then_found_witness :
    (∀ p ∈ [(keyMean, buggyModel)], p.1 ≠ keyQ9) ∧
      get_frontier (applyAdds emptyStore [(keyMean, buggyModel)]) keyQ9 =
        .error notFoundMsg ∧
      get_estimate_store (applyAdds emptyStore [(keyMean, buggyModel)]) keyQ9 =
        .error notFoundMsg ∧
      get_frontier (add_model (applyAdds emptyStore [(keyMean, buggyModel)])
        buggyModel keyQ9) keyQ9 = .ok buggyModel.frontier := by
  have hne : ∀ p ∈ [(keyMean, buggyModel)], p.1 ≠ keyQ9 := by decide
  have h := model_store_not_found_then_found [(keyMean, buggyModel)] keyQ9
    buggyModel hne
  exact ⟨hne, h.1, h.2.2.2.1, h.2.2.2.2.2.2⟩

end RoadTraffic
